import Mathlib

/-!
Shallow embedding of the text-analysis application (three Python modules:
text_proc.py, crawler.py, app.py).

Modelling conventions:
* Python strings are Lean `String`s; all string algorithms are written over
  `List Char` (`String.data`) with structural recursion so that concrete
  inputs evaluate inside the kernel.
* `jieba` segmentation and `BeautifulSoup` parsing are external capability
  boundaries (spec section 4.3 and section 4.2 step 1-2); functions that
  consume their output take the produced value (a token list, respectively
  the extracted page text) as an argument.
* Python `Counter` is an insertion-ordered association list
  `List (String × Nat)`; `Counter.most_common(n)` is a stable descending
  sort by count followed by `take n`.
* Fallible operations return `Option`; the outcomes of a Streamlit run are
  an explicit inductive.
-/

namespace TextApp

/-- Python `str.isdigit` restricted to ASCII digits: non-empty and all digits. -/
def pyIsDigit (s : String) : Bool :=
  !s.data.isEmpty && s.data.all Char.isDigit

/-- Python `str.isspace`: non-empty and all whitespace. -/
def pyIsSpace (s : String) : Bool :=
  !s.data.isEmpty && s.data.all Char.isWhitespace

/-- Drop leading and trailing whitespace from a character list
(model of Python `str.strip`). -/
def stripChars (l : List Char) : List Char :=
  ((l.dropWhile Char.isWhitespace).reverse.dropWhile Char.isWhitespace).reverse

/-- Python `str.strip`. -/
def pyStrip (s : String) : String :=
  String.mk (stripChars s.data)

/-- Split a character list at every occurrence of `sep`
(model of Python `str.split(sep)`; keeps empty pieces). -/
def splitOnChar (sep : Char) : List Char → List (List Char)
  | [] => [[]]
  | c :: cs =>
    match splitOnChar sep cs with
    | [] => [[]]
    | l :: ls => if c == sep then [] :: l :: ls else (c :: l) :: ls

/-- Python `text.split(chr)` on strings. -/
def pySplitOn (sep : Char) (s : String) : List String :=
  (splitOnChar sep s.data).map String.mk

/-- Python `all_text.split(a newline)` as used in `parse_page`. -/
def pySplitLines (s : String) : List String :=
  pySplitOn '\n' s

/-- Python `(a newline).join(lines)` as used in `parse_page`. -/
def joinLines : List String → String
  | [] => ""
  | l :: ls => ls.foldl (fun acc x => acc ++ "\n" ++ x) l

/-! ### text_proc.py -/

/-- `read_text_files`: concatenate the contents of the files that could be
read, each followed by a newline; a missing file (`none`) is skipped.
The file list is modelled as the optional contents of `new1.txt` .. . -/
def readTextFiles (files : List (Option String)) : String :=
  files.foldl (fun acc f => match f with | some t => acc ++ t ++ "\n" | none => acc) ""

/-- One step of the non-greedy `<.*?>` substitution of `remove_html_tags`,
written with explicit fuel so the kernel can evaluate it; `removeHtmlTags`
supplies fuel equal to the input length, which is always sufficient because
every step consumes at least one character. A match starts at a `<` that has
some `>` after it and extends to the first such `>`. -/
def stripTagsFuel : Nat → List Char → List Char
  | 0, l => l
  | _ + 1, [] => []
  | fuel + 1, c :: cs =>
    if c == '<' && cs.contains '>' then
      stripTagsFuel fuel ((cs.dropWhile (fun d => d != '>')).tail)
    else
      c :: stripTagsFuel fuel cs

/-- `remove_html_tags`: delete every non-greedy `<...>` span. -/
def removeHtmlTags (s : String) : String :=
  String.mk (stripTagsFuel s.data.length s.data)

/-- Character class of the punctuation regex in `remove_punctuation`
(the listed ranges; the fullwidth sub-ranges are subsumed by
`uff01-uff1f` and are kept OR-ed for fidelity). -/
def isPuncChar (c : Char) : Bool :=
  let n := c.toNat
  (0x3000 ≤ n && n ≤ 0x303f) || (0x2000 ≤ n && n ≤ 0x206f) ||
  (0x21 ≤ n && n ≤ 0x2f) || (0x3a ≤ n && n ≤ 0x40) ||
  (0x5b ≤ n && n ≤ 0x60) || (0x7b ≤ n && n ≤ 0x7e) ||
  (0xff01 ≤ n && n ≤ 0xff1f) || (0xff0c ≤ n && n ≤ 0xff1a) ||
  n == 0xff1b || n == 0xff0e || n == 0xff1f || n == 0xff01

/-- Collapse every whitespace run to a single space
(`re.sub` of a whitespace-run pattern with one space); the flag records
whether the previous character was whitespace. -/
def collapseWs : List Char → Bool → List Char
  | [], _ => []
  | c :: cs, prev =>
    if c.isWhitespace then
      if prev then collapseWs cs true else ' ' :: collapseWs cs true
    else
      c :: collapseWs cs false

/-- `remove_punctuation`: delete punctuation characters, collapse whitespace
runs to single spaces, strip. -/
def removePunctuation (s : String) : String :=
  pyStrip (String.mk (collapseWs (s.data.filter (fun c => !isPuncChar c)) false))

/-! ### Counter model -/

/-- Add one occurrence of `w` to an insertion-ordered counter: bump the
existing entry, else append a fresh entry with count 1. -/
def counterAdd (table : List (String × Nat)) (w : String) : List (String × Nat) :=
  if table.any (fun p => p.1 == w) then
    table.map (fun p => if p.1 == w then (p.1, p.2 + 1) else p)
  else
    table ++ [(w, 1)]

/-- Python `Counter(words)`: fold the token stream into the counter. -/
def counter (words : List String) : List (String × Nat) :=
  words.foldl counterAdd []

/-- Look a token up in a counter (first entry with that key). -/
def counterFind (table : List (String × Nat)) (w : String) : Option (String × Nat) :=
  table.find? (fun p => p.1 == w)

/-- The count a counter assigns to a token (0 when absent). -/
def counterCount (table : List (String × Nat)) (w : String) : Nat :=
  match counterFind table w with
  | some p => p.2
  | none => 0

/-- Comparator of `Counter.most_common`: earlier entry stays before a later
one unless the later one has a strictly larger count. -/
def countGe (a b : String × Nat) : Prop := b.2 ≤ a.2

instance : DecidableRel countGe := fun a b => Nat.decLe b.2 a.2

instance : IsTotal (String × Nat) countGe :=
  ⟨fun a b => Nat.le_total b.2 a.2⟩

instance : IsTrans (String × Nat) countGe :=
  ⟨fun _ _ _ h₁ h₂ => Nat.le_trans h₂ h₁⟩

/-- Python `Counter.most_common(n)`: stable sort by count descending, take
the first `n` entries. -/
def mostCommon (n : Nat) (table : List (String × Nat)) : List (String × Nat) :=
  (List.insertionSort countGe table).take n

/-! ### text_proc.py aggregation -/

/-- The token filter of `analyze_word_frequency`: keep words of length
greater than 1 that are not pure digit sequences. -/
def filteredWords (wordList : List String) : List String :=
  wordList.filter (fun w => decide (1 < w.length) && !pyIsDigit w)

/-- `analyze_word_frequency text top_n` with the external segmenter `seg`
(jieba, spec section 4.3): empty text short-circuits to an empty result;
otherwise segment, filter, count, and return the top-n list together with
the full frequency table. -/
def analyzeWordFrequency (text : String) (seg : String → List String) (topN : Nat) :
    List (String × Nat) × List (String × Nat) :=
  if text = "" then ([], [])
  else
    let wordCounter := counter (filteredWords (seg text))
    (mostCommon topN wordCounter, wordCounter)

/-- The report written by `save_word_freq_to_file`: distinct-token count,
the top-20 list, and the full table sorted by count descending. -/
structure Report where
  totalTokens : Nat
  topWords : List (String × Nat)
  fullSorted : List (String × Nat)
deriving DecidableEq, Repr

/-- The main flow of text_proc.py, from the file contents to the report:
exit without a report when nothing was read; otherwise strip tags and
punctuation, aggregate, and write the report unconditionally. -/
def textProcMain (files : List (Option String)) (seg : String → List String) :
    Option Report :=
  let raw := readTextFiles files
  if raw = "" then none
  else
    let cleanText := removePunctuation (removeHtmlTags raw)
    let result := analyzeWordFrequency cleanText seg 20
    some ⟨result.2.length, result.1, List.insertionSort countGe result.2⟩

/-! ### app.py -/

/-- The stopword table `STOP_WORDS` of app.py. -/
def STOP_WORDS : List String := [
  "的", "了", "在", "是", "我", "有", "和", "就", "不", "人", "都", "一", "一个", "上", "也",
  "很", "到", "说", "要", "去", "你", "会", "着", "没有", "看", "好", "自己", "这", "那",
  "他", "她", "它", "我们", "你们", "他们", "这里", "那里", "然后", "但是", "因为", "所以",
  "如果", "虽然", "这些", "那些", "什么", "怎么", "为什么", "哪个", "哪", "多少", "几",
  "与", "及", "等", "对", "对于", "关于", "通过", "为了", "来自", "用于", "其中", "包括",
  "可以", "将", "能", "让", "使", "被", "把", "给", "向", "从", "以", "之", "而", "则",
  "此", "该", "其", "或", "即", "因", "由", "及", "并", "个", "位", "件", "条", "本", "项"]

/-- A character kept by `INVALID_CHAR_REG` (CJK ideographs, ASCII letters,
ASCII digits); every other character is replaced by a space. -/
def validChar (c : Char) : Bool :=
  (0x4e00 ≤ c.toNat && c.toNat ≤ 0x9fa5) ||
  ('a' ≤ c && c ≤ 'z') || ('A' ≤ c && c ≤ 'Z') || ('0' ≤ c && c ≤ '9')

/-- The `INVALID_CHAR_REG.sub` step of `segment_text`. -/
def cleanInvalid (s : String) : String :=
  String.mk (s.data.map (fun c => if validChar c then c else ' '))

/-- The word filter of `segment_text`: keep words of length greater than 1
that are not stopwords and not whitespace-only. -/
def segmentFilter (words : List String) : List String :=
  words.filter (fun w => decide (1 < w.length) && !STOP_WORDS.contains w && !pyIsSpace w)

/-- `segment_text` with the external segmenter `seg` (jieba): replace
invalid characters by spaces, segment, filter. -/
def segmentText (seg : String → List String) (text : String) : List String :=
  segmentFilter (seg (cleanInvalid text))

/-- `get_word_freq`: count the words, then keep only the entries whose count
reaches `minFreq`. -/
def getWordFreq (words : List String) (minFreq : Nat) : List (String × Nat) :=
  (counter words).filter (fun p => decide (minFreq ≤ p.2))

/-- The top-20 ranking of app.py: `word_freq.most_common(20)` applied to the
already-thresholded table returned by `get_word_freq`. -/
def appTop20 (words : List String) (minFreq : Nat) : List (String × Nat) :=
  mostCommon 20 (getWordFreq words minFreq)

/-- The possible outcomes of one analysis run of app.py. -/
inductive AppOutcome where
  | noText : AppOutcome
  | noWords : AppOutcome
  | emptyResult : AppOutcome
  | done : List (String × Nat) → List (String × Nat) → AppOutcome
deriving DecidableEq, Repr

/-- The analysis flow of app.py after the button is pressed: stop when the
fetched text is empty, when no word survives segmentation, or when no word
reaches the threshold; otherwise rank the thresholded table. -/
def appRun (text : String) (seg : String → List String) (minFreq : Nat) : AppOutcome :=
  if text = "" then .noText
  else
    let words := segmentText seg text
    if words = [] then .noWords
    else
      let wf := getWordFreq words minFreq
      if wf = [] then .emptyResult
      else .done wf (mostCommon 20 wf)

/-- A concrete instance of the external tokenizer contract (spec section
4.3: deterministic, literal runs for space-delimited text), used to
instantiate witnesses: split on spaces, drop empty pieces. -/
def segDemo (s : String) : List String :=
  ((splitOnChar ' ' s.data).filter (fun l => !l.isEmpty)).map String.mk

/-! ### crawler.py -/

/-- The outcome of one `requests.get` call in `get_web_page`: a body, or one
of the caught exception classes (connect timeout, HTTP error status,
request exception, any other exception). -/
inductive FetchResult where
  | success : String → FetchResult
  | connectTimeout : FetchResult
  | httpError : Nat → FetchResult
  | requestError : String → FetchResult
  | unknownError : String → FetchResult
deriving DecidableEq, Repr

/-- `get_web_page`: the body on success, `none` for every caught failure
(the Python function returns None instead of raising). -/
def getWebPage : FetchResult → Option String
  | .success body => some body
  | .connectTimeout => none
  | .httpError _ => none
  | .requestError _ => none
  | .unknownError _ => none

/-- The line-accumulation step of `parse_page`: strip the line; append it
when it is non-empty and not already present. -/
def dedupStep (lines : List String) (line : String) : List String :=
  let s := pyStrip line
  if s ≠ "" ∧ s ∉ lines then lines ++ [s] else lines

/-- The full line loop of `parse_page` over the split text. -/
def dedupLines (ls : List String) : List String :=
  ls.foldl dedupStep []

/-- `parse_page` from the point where `soup.get_text` has produced the raw
extracted text `allText` (the BeautifulSoup stage is the external extractor
boundary, spec section 4.2 steps 1-2): split into lines, strip, drop empty
and duplicate lines, join with newlines, and reject the page when the
joined text is shorter than 50 characters. -/
def parsePage (allText : String) : Option String :=
  let lines := dedupLines (pySplitLines allText)
  let finalText := joinLines lines
  if finalText.length < 50 then none else some finalText

/-- The loop of `crawl_and_save` over the per-URL fetch outcomes: a failed
fetch (or an empty body, both falsy in Python) is skipped, a failed parse is
skipped, and the loop continues with the remaining URLs; position `i` of the
result is the text saved for URL `i` (`none` when it was skipped). -/
def crawlLoop : List FetchResult → List (Option String)
  | [] => []
  | pr :: rest =>
    match getWebPage pr with
    | none => none :: crawlLoop rest
    | some html =>
      if html = "" then none :: crawlLoop rest
      else
        match parsePage html with
        | none => none :: crawlLoop rest
        | some text => some text :: crawlLoop rest

/-! ### Spec-side definitions -/

/-- Spec-side characterization of line deduplication (spec section 4.2 step
4): keep the first occurrence of each line, in order. -/
def dedupSpec : List String → List String
  | [] => []
  | x :: xs => x :: dedupSpec (xs.filter (fun y => y != x))
termination_by l => l.length
decreasing_by
  simp only [List.length_cons]
  exact Nat.lt_succ_of_le (List.length_filter_le _ _)

/-- The stripped non-empty lines of the input, in order (the stream from
which `parse_page` deduplicates). -/
def cleanedLines (ls : List String) : List String :=
  (ls.map pyStrip).filter (fun s => s != "")

end TextApp

namespace TextApp

/-! ### Counter lemmas -/

theorem counterCount_eq (tb : List (String × Nat)) (t : String) :
    counterCount tb t = ((counterFind tb t).map Prod.snd).getD 0 := by
  unfold counterCount
  cases counterFind tb t <;> rfl

theorem counterFind_map_update (tb : List (String × Nat)) (w t : String) :
    counterFind (tb.map (fun p => if p.1 == w then (p.1, p.2 + 1) else p)) t
      = Option.map (fun p => if p.1 == w then (p.1, p.2 + 1) else p) (counterFind tb t) := by
  induction tb with
  | nil => rfl
  | cons q qs ih =>
    cases hw : (q.1 == w) <;> cases ht : (q.1 == t) <;>
      simp_all [counterFind, List.find?_cons, hw, ht]

theorem counterFind_isSome_of_any (tb : List (String × Nat)) (t : String)
    (h : tb.any (fun p => p.1 == t) = true) : counterFind tb t ≠ none := by
  intro hn
  rcases List.any_eq_true.mp h with ⟨p, hp, hpt⟩
  have hn' : tb.find? (fun p => p.1 == t) = none := hn
  exact absurd hpt (by simpa using List.find?_eq_none.mp hn' p hp)

theorem counterCount_counterAdd (tb : List (String × Nat)) (w t : String) :
    counterCount (counterAdd tb w) t = counterCount tb t + (if t = w then 1 else 0) := by
  rw [counterCount_eq, counterCount_eq]
  unfold counterAdd
  cases h : tb.any (fun p => p.1 == w) with
  | true =>
    rw [if_pos rfl, counterFind_map_update]
    cases hf : counterFind tb t with
    | none =>
      have htw : ¬ t = w := fun he => (counterFind_isSome_of_any tb t (he ▸ h) hf)
      simp [htw]
    | some p =>
      have hf' : tb.find? (fun q => q.1 == t) = some p := hf
      have hpt : p.1 = t := by simpa using List.find?_some hf'
      by_cases htw : t = w
      · subst htw
        simp [hpt]
      · have hne : (p.1 == w) = false := by
          rw [hpt]
          exact beq_eq_false_iff_ne.mpr htw
        simp [hpt, htw]
  | false =>
    rw [if_neg (by simp)]
    have h' := h
    have happ : counterFind (tb ++ [(w, 1)]) t
        = (counterFind tb t).or (counterFind [(w, 1)] t) := by
      simp [counterFind]
    rw [happ]
    by_cases htw : t = w
    · subst htw
      have hnone : counterFind tb t = none :=
        List.find?_eq_none.mpr (fun p hp => List.any_eq_false.mp h' p hp)
      have hsingle : counterFind [(t, 1)] t = some (t, 1) := by
        simp [counterFind, List.find?]
      rw [hnone, hsingle]
      simp
    · have hwt : (w == t) = false := beq_eq_false_iff_ne.mpr (fun hc => htw hc.symm)
      have hsingle : counterFind [(w, 1)] t = none := by
        simp [counterFind, List.find?, hwt]
      rw [hsingle]
      cases counterFind tb t <;> simp [htw]

theorem counterCount_foldl (ws : List String) :
    ∀ (acc : List (String × Nat)) (t : String),
      counterCount (ws.foldl counterAdd acc) t = counterCount acc t + ws.count t := by
  induction ws with
  | nil => intro acc t; simp
  | cons w ws ih =>
    intro acc t
    simp only [List.foldl_cons]
    rw [ih, counterCount_counterAdd, List.count_cons]
    by_cases h : t = w
    · subst h
      simp
      omega
    · have hwt : (w == t) = false := beq_eq_false_iff_ne.mpr (fun hc => h hc.symm)
      simp [h, hwt]

theorem counterCount_counter (ws : List String) (t : String) :
    counterCount (counter ws) t = ws.count t := by
  have h := counterCount_foldl ws [] t
  simpa [counter, counterCount, counterFind] using h

theorem keys_map_update (tb : List (String × Nat)) (w : String) :
    (tb.map (fun p => if p.1 == w then (p.1, p.2 + 1) else p)).map Prod.fst
      = tb.map Prod.fst := by
  induction tb with
  | nil => rfl
  | cons q qs ih =>
    simp only [List.map_cons, ih]
    congr 1
    split <;> rfl

theorem keys_counterAdd_update (tb : List (String × Nat)) (w : String)
    (h : tb.any (fun p => p.1 == w) = true) :
    (counterAdd tb w).map Prod.fst = tb.map Prod.fst := by
  unfold counterAdd
  rw [if_pos h]
  exact keys_map_update tb w

theorem keys_counterAdd_subset (tb : List (String × Nat)) (w : String) :
    ((counterAdd tb w).map Prod.fst) ⊆ w :: tb.map Prod.fst := by
  cases h : tb.any (fun p => p.1 == w) with
  | true =>
    rw [keys_counterAdd_update tb w h]
    exact List.subset_cons_self w _
  | false =>
    unfold counterAdd
    rw [if_neg (by simp [h])]
    intro x hx
    rw [List.map_append] at hx
    rcases List.mem_append.mp hx with h1 | h2
    · exact List.mem_cons_of_mem _ h1
    · simp only [List.map_cons, List.map_nil, List.mem_singleton] at h2
      simp [h2]

theorem mem_foldl_counterAdd (ws : List String) :
    ∀ (acc : List (String × Nat)) (p : String × Nat),
      p ∈ ws.foldl counterAdd acc → p.1 ∈ acc.map Prod.fst ∨ p.1 ∈ ws := by
  induction ws with
  | nil =>
    intro acc p hp
    exact Or.inl (List.mem_map_of_mem _ hp)
  | cons w ws ih =>
    intro acc p hp
    rcases ih (counterAdd acc w) p hp with h1 | h2
    · rcases List.mem_cons.mp (keys_counterAdd_subset acc w h1) with he | hm
      · exact Or.inr (by simp [he])
      · exact Or.inl hm
    · exact Or.inr (List.mem_cons_of_mem _ h2)

theorem mem_counter_key {ws : List String} {p : String × Nat}
    (h : p ∈ counter ws) : p.1 ∈ ws := by
  rcases mem_foldl_counterAdd ws [] p h with h1 | h2
  · simp at h1
  · exact h2

theorem keys_counterAdd_nodup (tb : List (String × Nat)) (w : String)
    (h : (tb.map Prod.fst).Nodup) : ((counterAdd tb w).map Prod.fst).Nodup := by
  cases hany : tb.any (fun p => p.1 == w) with
  | true =>
    rw [keys_counterAdd_update tb w hany]
    exact h
  | false =>
    unfold counterAdd
    rw [if_neg (by simp [hany]), List.map_append]
    refine List.Nodup.append h (List.nodup_singleton w) ?_
    intro a ha hb
    simp only [List.map_cons, List.map_nil, List.mem_singleton] at hb
    subst hb
    rcases List.mem_map.mp ha with ⟨p, hp, hk⟩
    have := List.any_eq_false.mp hany p hp
    exact this (by simp [hk])

theorem counter_keys_nodup (ws : List String) : ((counter ws).map Prod.fst).Nodup := by
  have general : ∀ (acc : List (String × Nat)), (acc.map Prod.fst).Nodup →
      ((ws.foldl counterAdd acc).map Prod.fst).Nodup := by
    induction ws with
    | nil => intro acc h; exact h
    | cons w ws ih => intro acc h; exact ih _ (keys_counterAdd_nodup acc w h)
  exact general [] (by simp)

theorem counterFind_eq_of_mem {tb : List (String × Nat)}
    (hN : (tb.map Prod.fst).Nodup) {p : String × Nat} (hp : p ∈ tb) :
    counterFind tb p.1 = some p := by
  induction tb with
  | nil => cases hp
  | cons q qs ih =>
    rw [List.map_cons] at hN
    have hN' := List.nodup_cons.mp hN
    rcases List.mem_cons.mp hp with he | hm
    · subst he
      simp [counterFind, List.find?]
    · have hq : q.1 ≠ p.1 := by
        intro hc
        exact hN'.1 (hc ▸ List.mem_map_of_mem Prod.fst hm)
      have hb : (q.1 == p.1) = false := beq_eq_false_iff_ne.mpr hq
      have := ih hN'.2 hm
      simpa [counterFind, List.find?, hb] using this

theorem mem_getWordFreq {words : List String} {minFreq : Nat} {p : String × Nat}
    (h : p ∈ getWordFreq words minFreq) : p ∈ counter words ∧ minFreq ≤ p.2 := by
  have hf := List.mem_filter.mp h
  exact ⟨hf.1, by simpa using hf.2⟩

/-! ### most_common lemmas -/

theorem mostCommon_subset (n : Nat) (tb : List (String × Nat)) :
    mostCommon n tb ⊆ tb := by
  intro p hp
  exact (List.perm_insertionSort countGe tb).subset ((List.take_sublist n _).subset hp)

theorem mostCommon_length (n : Nat) (tb : List (String × Nat)) :
    (mostCommon n tb).length = min n tb.length := by
  unfold mostCommon
  rw [List.length_take, List.length_insertionSort]

theorem mostCommon_sorted (n : Nat) (tb : List (String × Nat)) :
    (mostCommon n tb).Pairwise countGe :=
  List.Pairwise.sublist (List.take_sublist n _) (List.sorted_insertionSort countGe tb)

theorem mostCommon_keys_nodup (n : Nat) (tb : List (String × Nat))
    (h : (tb.map Prod.fst).Nodup) : ((mostCommon n tb).map Prod.fst).Nodup := by
  have h1 : ((List.insertionSort countGe tb).map Prod.fst).Nodup :=
    (((List.perm_insertionSort countGe tb).map Prod.fst).nodup_iff).mpr h
  unfold mostCommon
  rw [List.map_take]
  exact List.Nodup.sublist (List.take_sublist n _) h1

/-! ### Strip and dedup lemmas -/

theorem dropWhile_dropWhile (p : Char → Bool) (l : List Char) :
    (l.dropWhile p).dropWhile p = l.dropWhile p := by
  induction l with
  | nil => rfl
  | cons c cs ih =>
    by_cases h : p c = true
    · simp only [List.dropWhile_cons, h, if_true]
      exact ih
    · simp only [List.dropWhile_cons, h, if_false]
      simp [List.dropWhile_cons, h]

theorem dropWhile_head_false (p : Char → Bool) (l : List Char) :
    ∀ c, (l.dropWhile p).head? = some c → p c = false := by
  induction l with
  | nil => intro c h; cases h
  | cons d ds ih =>
    intro c h
    cases hd : p d with
    | true =>
      rw [List.dropWhile_cons, if_pos hd] at h
      exact ih c h
    | false =>
      rw [List.dropWhile_cons, if_neg (by simp [hd])] at h
      cases h
      exact hd

theorem dropWhile_eq_self_of_head (p : Char → Bool) (l : List Char)
    (h : ∀ c, l.head? = some c → p c = false) : l.dropWhile p = l := by
  cases l with
  | nil => rfl
  | cons c cs =>
    have := h c rfl
    simp [List.dropWhile_cons, this]

theorem getLast?_dropWhile (p : Char → Bool) (l : List Char)
    (h : l.dropWhile p ≠ []) : (l.dropWhile p).getLast? = l.getLast? := by
  induction l with
  | nil => simp at h
  | cons c cs ih =>
    cases hc : p c with
    | true =>
      rw [List.dropWhile_cons, if_pos hc] at h ⊢
      have hne : cs ≠ [] := by
        intro he
        subst he
        exact h rfl
      rw [ih h]
      cases cs with
      | nil => exact absurd rfl hne
      | cons d ds => rw [List.getLast?_cons_cons]
    | false =>
      rw [List.dropWhile_cons, if_neg (by simp [hc])]

theorem stripChars_idem (l : List Char) : stripChars (stripChars l) = stripChars l := by
  have hA : (stripChars l).dropWhile Char.isWhitespace = stripChars l := by
    apply dropWhile_eq_self_of_head
    intro c hc
    by_cases hbe :
        (l.dropWhile Char.isWhitespace).reverse.dropWhile Char.isWhitespace = []
    · have : stripChars l = [] := by
        unfold stripChars
        rw [hbe]
        rfl
      rw [this] at hc
      cases hc
    · unfold stripChars at hc
      rw [List.head?_reverse, getLast?_dropWhile _ _ hbe, List.getLast?_reverse] at hc
      exact dropWhile_head_false _ l c hc
  have hB : (stripChars l).reverse.dropWhile Char.isWhitespace = (stripChars l).reverse := by
    show ((((l.dropWhile Char.isWhitespace).reverse.dropWhile
        Char.isWhitespace).reverse).reverse).dropWhile Char.isWhitespace = _
    rw [List.reverse_reverse, dropWhile_dropWhile]
    show _ = (((l.dropWhile Char.isWhitespace).reverse.dropWhile
        Char.isWhitespace).reverse).reverse
    rw [List.reverse_reverse]
  calc stripChars (stripChars l)
      = (((stripChars l).dropWhile Char.isWhitespace).reverse.dropWhile
          Char.isWhitespace).reverse := rfl
    _ = ((stripChars l).reverse.dropWhile Char.isWhitespace).reverse := by rw [hA]
    _ = ((stripChars l).reverse).reverse := by rw [hB]
    _ = stripChars l := List.reverse_reverse _

theorem pyStrip_idem (s : String) : pyStrip (pyStrip s) = pyStrip s := by
  show String.mk (stripChars (String.mk (stripChars s.data)).data) = _
  show String.mk (stripChars (stripChars s.data)) = _
  rw [stripChars_idem]
  rfl

theorem filter_not_mem_append (ls acc : List String) (s : String) :
    ls.filter (fun y => decide (y ∉ acc ++ [s]))
      = (ls.filter (fun y => decide (y ∉ acc))).filter (fun y => y != s) := by
  rw [List.filter_filter]
  apply List.filter_congr
  intro y _
  by_cases hm : y ∈ acc
  · simp [hm]
  · by_cases he : y = s
    · simp [hm, he]
    · simp [hm, he]

theorem foldl_dedupStep_eq (ls : List String) :
    ∀ acc : List String,
      ls.foldl dedupStep acc
        = acc ++ dedupSpec ((cleanedLines ls).filter (fun y => decide (y ∉ acc))) := by
  induction ls with
  | nil =>
    intro acc
    simp [cleanedLines, dedupSpec]
  | cons l ls ih =>
    intro acc
    simp only [List.foldl_cons]
    rw [ih (dedupStep acc l)]
    unfold dedupStep
    by_cases h1 : pyStrip l = ""
    · rw [if_neg (by simp [h1])]
      have hc : cleanedLines (l :: ls) = cleanedLines ls := by
        simp [cleanedLines, List.filter_cons, h1]
      rw [hc]
    · have hcons : cleanedLines (l :: ls) = pyStrip l :: cleanedLines ls := by
        simp [cleanedLines, List.filter_cons, h1]
      by_cases h2 : pyStrip l ∈ acc
      · rw [if_neg (by simp [h2])]
        rw [hcons, List.filter_cons]
        rw [if_neg (by simp [h2])]
      · rw [if_pos ⟨h1, h2⟩]
        rw [hcons, List.filter_cons]
        rw [if_pos (by simp [h2])]
        rw [dedupSpec]
        rw [filter_not_mem_append]
        rw [List.append_assoc]
        rfl

theorem dedupLines_eq_dedupSpec (ls : List String) :
    dedupLines ls = dedupSpec (cleanedLines ls) := by
  unfold dedupLines
  rw [foldl_dedupStep_eq ls []]
  have : (cleanedLines ls).filter (fun y => decide (y ∉ ([] : List String)))
      = cleanedLines ls :=
    List.filter_eq_self.mpr (fun a _ => by simp)
  rw [this]
  simp

theorem dedupSpec_subset (l : List String) : dedupSpec l ⊆ l := by
  induction l using dedupSpec.induct with
  | case1 =>
    intro y hy
    rw [dedupSpec] at hy
    cases hy
  | case2 x xs ih =>
    intro y hy
    rw [dedupSpec] at hy
    rcases List.mem_cons.mp hy with he | hm
    · exact he ▸ List.mem_cons_self x xs
    · exact List.mem_cons_of_mem x ((List.filter_sublist xs).subset (ih hm))

theorem dedupSpec_nodup (l : List String) : (dedupSpec l).Nodup := by
  induction l using dedupSpec.induct with
  | case1 =>
    rw [dedupSpec]
    exact List.nodup_nil
  | case2 x xs ih =>
    rw [dedupSpec]
    refine List.nodup_cons.mpr ⟨?_, ih⟩
    intro hx
    have hmem := dedupSpec_subset _ hx
    have := (List.mem_filter.mp hmem).2
    simp at this

/-! ### Claim theorems -/

/-- C1 (amended): in the text_proc.py path the final frequency table contains
no token of length at most 1 and no pure digit token (stopwords are not
filtered there); in the app.py path the final frequency table contains no
token of length at most 1, no stopword and no whitespace-only token (pure
digit tokens are not filtered there). -/
theorem table_filter_invariants :
    (∀ (text : String) (seg : String → List String) (topN : Nat),
      ∀ p ∈ (analyzeWordFrequency text seg topN).2,
        1 < p.1.length ∧ pyIsDigit p.1 = false)
    ∧ (∀ (text : String) (seg : String → List String) (minFreq : Nat),
      ∀ p ∈ getWordFreq (segmentText seg text) minFreq,
        1 < p.1.length ∧ p.1 ∉ STOP_WORDS ∧ pyIsSpace p.1 = false) := by
  constructor
  · intro text seg topN p hp
    by_cases ht : text = ""
    · simp [analyzeWordFrequency, ht] at hp
    · simp only [analyzeWordFrequency, if_neg ht] at hp
      have hk := mem_counter_key hp
      have hf := List.mem_filter.mp hk
      have hpred := hf.2
      simp only [Bool.and_eq_true, decide_eq_true_eq, Bool.not_eq_true'] at hpred
      exact ⟨hpred.1, hpred.2⟩
  · intro text seg minFreq p hp
    have hk := mem_counter_key (mem_getWordFreq hp).1
    have hf := List.mem_filter.mp hk
    have hpred := hf.2
    simp only [Bool.and_eq_true, decide_eq_true_eq, Bool.not_eq_true'] at hpred
    refine ⟨hpred.1.1, ?_, hpred.2⟩
    intro hc
    have : STOP_WORDS.contains p.1 = true := List.elem_eq_true_of_mem hc
    rw [this] at hpred
    exact Bool.noConfusion hpred.1.2

/-- C1 witness: concrete surviving tokens in both tables satisfy the amended
filter invariants. -/
theorem table_filter_invariants_witness :
    (1 < ("aa" : String).length ∧ pyIsDigit "aa" = false)
    ∧ (1 < ("bb" : String).length ∧ "bb" ∉ STOP_WORDS ∧ pyIsSpace "bb" = false) :=
  ⟨table_filter_invariants.1 "aa aa" segDemo 20 ("aa", 2) (by decide),
   table_filter_invariants.2 "bb" segDemo 1 ("bb", 1) (by decide)⟩

/-- C1 counterexample: the app.py table retains the pure digit token 2024,
and the text_proc.py table retains the stopword 我们, so the original claim
(no digit token and no stopword in either path) is false. -/
theorem table_keeps_digit_and_stopword :
    (("2024", 2) ∈ getWordFreq (segmentText segDemo "2024 2024") 2
      ∧ pyIsDigit "2024" = true)
    ∧ (("我们", 2) ∈ (analyzeWordFrequency "我们 我们" segDemo 20).2
      ∧ "我们" ∈ STOP_WORDS) := by
  refine ⟨⟨by decide, by decide⟩, ⟨by decide, by decide⟩⟩

/-- C2: every (token, count) pair of the app.py top-20 output satisfies
count ≥ minFreq, because most_common is applied to the table get_word_freq
has already thresholded. -/
theorem appTop20_counts_ge_minFreq :
    ∀ (words : List String) (minFreq : Nat),
      ∀ p ∈ appTop20 words minFreq, minFreq ≤ p.2 := by
  intro words minFreq p hp
  exact (mem_getWordFreq (mostCommon_subset 20 _ hp)).2

/-- C2 witness: a concrete ranked pair meets the threshold. -/
theorem appTop20_counts_ge_minFreq_witness :
    ("aa", 2) ∈ appTop20 ["aa", "aa", "bb"] 2 ∧ 2 ≤ (("aa", 2) : String × Nat).2 :=
  ⟨by decide, appTop20_counts_ge_minFreq ["aa", "aa", "bb"] 2 ("aa", 2) (by decide)⟩

/-- C3: counting is a homomorphism over token-stream concatenation, and
three documents each containing 测试 once, merged and thresholded at
minFreq = 2, keep 测试 with count 3. -/
theorem counter_concat_additive :
    (∀ (A B : List String) (t : String),
      counterCount (counter (A ++ B)) t
        = counterCount (counter A) t + counterCount (counter B) t)
    ∧ ("测试", 3) ∈ getWordFreq (["测试"] ++ ["测试"] ++ ["测试"]) 2 := by
  constructor
  · intro A B t
    rw [counterCount_counter, counterCount_counter, counterCount_counter,
      List.count_append]
  · decide

/-- C5: the top-N list is no longer than min(N, table size) and its counts
are non-increasing from the first entry to the last. -/
theorem mostCommon_length_and_descending :
    ∀ (n : Nat) (table : List (String × Nat)),
      (mostCommon n table).length ≤ min n table.length
      ∧ (mostCommon n table).Pairwise (fun a b => b.2 ≤ a.2) := by
  intro n table
  exact ⟨le_of_eq (mostCommon_length n table), mostCommon_sorted n table⟩

/-- C10: every pair of the top-N list of analyze_word_frequency is present
in the returned full table with the same count, and the top-N list has no
duplicate tokens. -/
theorem analyze_outputs_consistent :
    ∀ (text : String) (seg : String → List String) (topN : Nat),
      (∀ p ∈ (analyzeWordFrequency text seg topN).1,
        counterFind (analyzeWordFrequency text seg topN).2 p.1 = some p)
      ∧ (((analyzeWordFrequency text seg topN).1.map Prod.fst)).Nodup := by
  intro text seg topN
  by_cases ht : text = ""
  · simp [analyzeWordFrequency, ht]
  · simp only [analyzeWordFrequency, if_neg ht]
    constructor
    · intro p hp
      exact counterFind_eq_of_mem (counter_keys_nodup _) (mostCommon_subset topN _ hp)
    · exact mostCommon_keys_nodup topN _ (counter_keys_nodup _)

/-- C10 witness: a concrete ranked pair is found in the full table with the
same count. -/
theorem analyze_outputs_consistent_witness :
    counterFind (analyzeWordFrequency "aa bb aa" segDemo 20).2 "aa" = some ("aa", 2) :=
  (analyze_outputs_consistent "aa bb aa" segDemo 20).1 ("aa", 2) (by decide)

/-- C4: parse_page enforces the 50-character floor exactly: a deduplicated
joined text of length 49 is rejected with none, and one of length exactly
50 is accepted. -/
theorem parsePage_fifty_char_floor :
    ∀ allText : String,
      ((joinLines (dedupLines (pySplitLines allText))).length = 49 →
        parsePage allText = none)
      ∧ ((joinLines (dedupLines (pySplitLines allText))).length = 50 →
        parsePage allText = some (joinLines (dedupLines (pySplitLines allText)))) := by
  intro allText
  constructor
  · intro h
    simp [parsePage, h]
  · intro h
    simp [parsePage, h]

/-- C4 witness: a 49-character page is rejected and a 50-character page is
accepted. -/
theorem parsePage_fifty_char_floor_witness :
    parsePage "aaaaaaaaaaaaaaaaaaaaaaaaaaaaaaaaaaaaaaaaaaaaaaaaa" = none
    ∧ parsePage "aaaaaaaaaaaaaaaaaaaaaaaaaaaaaaaaaaaaaaaaaaaaaaaaaa"
      = some (joinLines (dedupLines (pySplitLines "aaaaaaaaaaaaaaaaaaaaaaaaaaaaaaaaaaaaaaaaaaaaaaaaaa"))) :=
  ⟨(parsePage_fifty_char_floor "aaaaaaaaaaaaaaaaaaaaaaaaaaaaaaaaaaaaaaaaaaaaaaaaa").1 (by decide),
   (parsePage_fifty_char_floor "aaaaaaaaaaaaaaaaaaaaaaaaaaaaaaaaaaaaaaaaaaaaaaaaaa").2 (by decide)⟩

/-- C6 (amended): in the app.py path an empty thresholded table stops the
run before any ranking (a done outcome always carries a non-empty table),
while in the text_proc.py path the aggregator returns an explicitly empty
result but the main flow still writes a report whenever any file content
was read. -/
theorem empty_threshold_outcomes :
    (∀ (text : String) (seg : String → List String) (minFreq : Nat)
        (wf top : List (String × Nat)),
      appRun text seg minFreq = AppOutcome.done wf top → wf ≠ [])
    ∧ (∀ (files : List (Option String)) (seg : String → List String),
      readTextFiles files ≠ "" → ∃ r, textProcMain files seg = some r) := by
  constructor
  · intro text seg minFreq wf top h hwf
    subst hwf
    unfold appRun at h
    by_cases ht : text = ""
    · simp [ht] at h
    · simp only [if_neg ht] at h
      by_cases hw : segmentText seg text = []
      · simp [hw] at h
      · simp only [if_neg hw] at h
        by_cases hf : getWordFreq (segmentText seg text) minFreq = []
        · simp [hf] at h
        · simp only [if_neg hf] at h
          injection h with h1 h2
          exact hf h1
  · intro files seg h
    simp only [textProcMain, if_neg h]
    exact ⟨_, rfl⟩

/-- C6 witness: a run that reaches the ranking has a non-empty table, and a
run with non-empty input produces a report. -/
theorem empty_threshold_outcomes_witness :
    [(("aa" : String), 2)] ≠ ([] : List (String × Nat))
    ∧ ∃ r, textProcMain [some "x"] segDemo = some r :=
  ⟨empty_threshold_outcomes.1 "aa aa" segDemo 1 [("aa", 2)] [("aa", 2)] (by decide),
   empty_threshold_outcomes.2 [some "x"] segDemo (by decide)⟩

/-- C6 counterexample: a text_proc.py run whose aggregated table is empty
(the only input character is punctuation) still produces a report, so the
claim that no report is generated on an EmptyResult run is false. -/
theorem report_written_despite_empty_table :
    (analyzeWordFrequency (removePunctuation (removeHtmlTags (readTextFiles [some "."])))
        segDemo 20).2 = []
    ∧ textProcMain [some "."] segDemo = some ⟨0, [], []⟩ :=
  ⟨by decide, by decide⟩

/-- C7: every caught fetch failure makes get_web_page return none rather
than raise, a failed URL contributes a skipped slot while the loop
continues with the rest, and every URL of the batch is processed. -/
theorem fetch_failure_skips_and_continues :
    (∀ (code : Nat) (msg : String),
      getWebPage FetchResult.connectTimeout = none
      ∧ getWebPage (FetchResult.httpError code) = none
      ∧ getWebPage (FetchResult.requestError msg) = none
      ∧ getWebPage (FetchResult.unknownError msg) = none)
    ∧ (∀ (pr : FetchResult) (rest : List FetchResult),
      getWebPage pr = none → crawlLoop (pr :: rest) = none :: crawlLoop rest)
    ∧ (∀ ps : List FetchResult, (crawlLoop ps).length = ps.length) := by
  refine ⟨fun code msg => ⟨rfl, rfl, rfl, rfl⟩, ?_, ?_⟩
  · intro pr rest h
    simp [crawlLoop, h]
  · intro ps
    induction ps with
    | nil => rfl
    | cons pr rest ih =>
      cases hg : getWebPage pr with
      | none => simp [crawlLoop, hg, ih]
      | some html =>
        by_cases he : html = ""
        · simp [crawlLoop, hg, he, ih]
        · cases hp : parsePage html with
          | none => simp [crawlLoop, hg, he, hp, ih]
          | some text => simp [crawlLoop, hg, he, hp, ih]

/-- C7 witness: a timed-out fetch is skipped and the loop continues. -/
theorem fetch_failure_skips_and_continues_witness :
    crawlLoop [FetchResult.connectTimeout] = none :: crawlLoop [] :=
  fetch_failure_skips_and_continues.2.1 FetchResult.connectTimeout []
    (fetch_failure_skips_and_continues.1 0 "").1

/-- C8: extraction is deterministic: two invocations of parse_page on equal
raw content produce identical results (parse_page is a pure function of its
input). -/
theorem parsePage_deterministic :
    ∀ s₁ s₂ : String, s₁ = s₂ → parsePage s₁ = parsePage s₂ := by
  intro s₁ s₂ h
  rw [h]

/-- C8 witness: the two runs on a concrete page agree. -/
theorem parsePage_deterministic_witness :
    parsePage "sample page" = parsePage "sample page" :=
  parsePage_deterministic "sample page" "sample page" rfl

/-- C9: the line sequence produced by parse_page has no duplicate lines,
every line is non-empty and already stripped (hence non-empty after
trimming) and is the strip of some input line, and the sequence equals the
order-preserving first-occurrence deduplication of the cleaned input
lines; any accepted page text is exactly the join of that sequence. -/
theorem parsePage_lines_invariant :
    ∀ allText : String,
      (∀ t, parsePage allText = some t
        → t = joinLines (dedupLines (pySplitLines allText)))
      ∧ (dedupLines (pySplitLines allText)).Nodup
      ∧ (∀ l ∈ dedupLines (pySplitLines allText),
          l ≠ "" ∧ pyStrip l = l ∧ ∃ orig ∈ pySplitLines allText, l = pyStrip orig)
      ∧ dedupLines (pySplitLines allText)
          = dedupSpec (cleanedLines (pySplitLines allText)) := by
  intro allText
  refine ⟨?_, ?_, ?_, dedupLines_eq_dedupSpec _⟩
  · intro t ht
    unfold parsePage at ht
    by_cases h : (joinLines (dedupLines (pySplitLines allText))).length < 50
    · simp [h] at ht
    · simp only [if_neg h, Option.some.injEq] at ht
      exact ht.symm
  · rw [dedupLines_eq_dedupSpec]
    exact dedupSpec_nodup _
  · intro l hl
    rw [dedupLines_eq_dedupSpec] at hl
    have h1 := dedupSpec_subset _ hl
    have h2 := List.mem_filter.mp h1
    rcases List.mem_map.mp h2.1 with ⟨orig, ho, he⟩
    have hne : l ≠ "" := by simpa using h2.2
    refine ⟨hne, ?_, orig, ho, he.symm⟩
    rw [← he, pyStrip_idem]

/-- C9 witness: a concrete kept line is non-empty, stripped, and comes from
an input line. -/
theorem parsePage_lines_invariant_witness :
    ("ab" : String) ≠ "" ∧ pyStrip "ab" = "ab"
    ∧ ∃ orig ∈ pySplitLines "ab\nc\nab", "ab" = pyStrip orig :=
  (parsePage_lines_invariant "ab\nc\nab").2.2.1 "ab" (by decide)

end TextApp
